import Mathlib

/-!
Verification development for the serialization helpers of the
ucsc-spheral-scripts repository (`shelpers.py`).

The module under study provides three operations over a distributed
particle collection ("node list"):

* `spickle_node_list` — collects all per-particle field values from all
  MPI ranks into one keyed dictionary (and optionally pickles it);
* `pflatten_node_list` — writes one formatted ASCII table line per
  locally-owned particle, ranks taking turns in ascending rank order;
* `pflatten_node_list_list` — sequences `pflatten_node_list` over several
  collections into one file, with per-collection integer identities.

The shallow embedding below models MPI collectives (`mpi.allreduce` with
`mpi.SUM` over Python lists is an ordered concatenation across ranks, over
integers an ordinary sum), the per-rank field data exposed by the external
Spheral node-list objects, Python's `"{:+12.5e}"` / `"{:2d}"` string
formatting, sequential file-append semantics of the rank-turn loop, and the
per-rank event traces (reductions, header writes, data writes, barriers).
-/

/-! ## MPI collectives

`mpi.allreduce(xs, mpi.SUM)` folds the ranks' contributions with `+` and
delivers the same result to every rank.  For Python lists `+` is
concatenation; for integers it is addition. -/

/-- Model of `mpi.allreduce(localList, mpi.SUM)` when the reduced values are
Python lists: the ranks' local lists (index = rank) are combined with list
`+`, i.e. concatenation, in ascending rank order. -/
def allreduceConcat {α : Type} (xss : List (List α)) : List α :=
  xss.foldl (fun a b => a ++ b) []

/-- Model of `mpi.allreduce(n, mpi.SUM)` for integer-valued local data:
the per-rank values are summed across ranks. -/
def allreduceSum (xs : List Nat) : Nat :=
  xs.foldl (fun a b => a + b) 0

/-! ## Field data exposed by the node list (external collaborator)

A node list gives, per rank, parallel sequences of per-particle values:
positions, velocities, masses, densities, specific thermal energies, the
EOS-computed pressures and temperatures, and the smoothing tensor field
`H`.  The code only consumes `H` through `H.Inverse().eigenValues()`, so
the tensor is modelled by that eigenvalue triple. -/

/-- A 3-vector value (`Vector3d`): exposes `.x`, `.y`, `.z`. -/
structure Vec3 where
  x : ℚ
  y : ℚ
  z : ℚ
deriving DecidableEq, Repr

/-- The smoothing tensor of one particle, modelled by the data the code
actually extracts from it: the eigenvalues of its inverse
(`H.Inverse().eigenValues()`). -/
structure SymTensor where
  invEig : Vec3
deriving DecidableEq, Repr

/-- `minElement()` of a `Vector3d`. -/
def Vec3.minElement (v : Vec3) : ℚ := min v.x (min v.y v.z)

/-- `maxElement()` of a `Vector3d`. -/
def Vec3.maxElement (v : Vec3) : ℚ := max v.x (max v.y v.z)

/-- One zipped per-particle record, as produced by
`zip(xloc, vloc, mloc, rloc, uloc, ploc, Tloc, Hloc)` in
`spickle_node_list`: all fields of one node travel in the same tuple. -/
structure NodeRec where
  pos : Vec3
  vel : Vec3
  m : ℚ
  rho : ℚ
  u : ℚ
  p : ℚ
  T : ℚ
  H : SymTensor
deriving DecidableEq, Repr

/-- The per-rank view of a node list: the count of internal nodes owned by
this rank together with the per-field `internalValues()` sequences read by
the code (positions, velocity, mass, massDensity, specificThermalEnergy,
the EOS-filled pressure and temperature scalar fields, and Hfield). -/
structure RankData where
  numInternalNodes : Nat
  xloc : List Vec3
  vloc : List Vec3
  mloc : List ℚ
  rloc : List ℚ
  uloc : List ℚ
  ploc : List ℚ
  Tloc : List ℚ
  Hloc : List SymTensor
deriving DecidableEq, Repr

/-- Library-guaranteed shape of a rank's field data: every
`internalValues()` sequence has exactly `numInternalNodes` entries. -/
def RankData.WF (rd : RankData) : Prop :=
  rd.xloc.length = rd.numInternalNodes ∧
  rd.vloc.length = rd.numInternalNodes ∧
  rd.mloc.length = rd.numInternalNodes ∧
  rd.rloc.length = rd.numInternalNodes ∧
  rd.uloc.length = rd.numInternalNodes ∧
  rd.ploc.length = rd.numInternalNodes ∧
  rd.Tloc.length = rd.numInternalNodes ∧
  rd.Hloc.length = rd.numInternalNodes

instance (rd : RankData) : Decidable rd.WF := by
  unfold RankData.WF; infer_instance

/-- Python 2's 8-ary `zip`: truncates at the shortest input, pairing the
k-th entries of all eight field sequences into one record. -/
def zipFields : List Vec3 → List Vec3 → List ℚ → List ℚ → List ℚ → List ℚ →
    List ℚ → List SymTensor → List NodeRec
  | x :: xs, v :: vs, m :: ms, r :: rs, u :: us, p :: ps, t :: ts, hh :: hs =>
      ⟨x, v, m, r, u, p, t, hh⟩ :: zipFields xs vs ms rs us ps ts hs
  | _, _, _, _, _, _, _, _ => []

/-- `localFields = zip(xloc, vloc, mloc, rloc, uloc, ploc, Tloc, Hloc)`
(line 92 of `shelpers.py`). -/
def localFields (rd : RankData) : List NodeRec :=
  zipFields rd.xloc rd.vloc rd.mloc rd.rloc rd.uloc rd.ploc rd.Tloc rd.Hloc

/-- `globalFields = mpi.allreduce(localFields, mpi.SUM)` (line 96):
concatenation of the per-rank zipped records in ascending rank order. -/
def globalFields (rds : List RankData) : List NodeRec :=
  allreduceConcat (rds.map localFields)

/-- `nbGlobalNodes = mpi.allreduce(nl.numInternalNodes, mpi.SUM)`
(line 111 for the pickler, line 190 for the flattener). -/
def nbGlobalNodes (rds : List RankData) : Nat :=
  allreduceSum (rds.map (fun rd => rd.numInternalNodes))

/-! ## The dictionary built by `spickle_node_list` -/

/-- The dict created at lines 99–108: keys
`name, x, v, m, rho, p, h, T, U`, with `x`, `v`, `h` holding 3-tuples and
the rest scalars. -/
@[ext]
structure NlFieldDict where
  name : String
  x : List (ℚ × ℚ × ℚ)
  v : List (ℚ × ℚ × ℚ)
  m : List ℚ
  rho : List ℚ
  p : List ℚ
  h : List (ℚ × ℚ × ℚ)
  T : List ℚ
  U : List ℚ
deriving DecidableEq, Repr

/-- The freshly initialized dict (`name=nl.name`, all field lists empty). -/
def emptyDict (name : String) : NlFieldDict :=
  { name := name, x := [], v := [], m := [], rho := [], p := [], h := [],
    T := [], U := [] }

/-- One iteration of the fill loop (lines 113–123): append the components
of `globalFields[k]` to the respective field lists.  Tuple slots:
0 = position, 1 = velocity, 2 = mass, 3 = density, 4 = specific thermal
energy (key `U`), 5 = pressure, 6 = temperature, 7 = smoothing tensor
(unpacked to the eigenvalue triple of its inverse, key `h`). -/
def appendRec (d : NlFieldDict) (r : NodeRec) : NlFieldDict :=
  { d with
    x := d.x ++ [(r.pos.x, r.pos.y, r.pos.z)],
    v := d.v ++ [(r.vel.x, r.vel.y, r.vel.z)],
    m := d.m ++ [r.m],
    rho := d.rho ++ [r.rho],
    U := d.U ++ [r.u],
    p := d.p ++ [r.p],
    T := d.T ++ [r.T],
    h := d.h ++ [(r.H.invEig.x, r.H.invEig.y, r.H.invEig.z)] }

/-- The loop `for k in range(nbGlobalNodes)` starting at index `k` with
`rem` iterations left.  Indexing `globalFields[k]` out of bounds is a
Python `IndexError`, modelled by `none`. -/
def fillFrom (gf : List NodeRec) (d : NlFieldDict) (k : Nat) :
    Nat → Option NlFieldDict
  | 0 => some d
  | rem + 1 =>
      match gf[k]? with
      | some r => fillFrom gf (appendRec d r) (k + 1) rem
      | none => none

/-- Lines 99–123: initialize the dict and run the fill loop for
`n = nbGlobalNodes` iterations over the reduced `globalFields`. -/
def fillDict (name : String) (gf : List NodeRec) (n : Nat) :
    Option NlFieldDict :=
  fillFrom gf (emptyDict name) 0 n

/-! ## The optional pickle phase of `spickle_node_list` (lines 126–139) -/

/-- The `filename` argument: Python `None`, a string, or a value of some
other (wrong) type, remembered by its type name for the warning text. -/
inductive Dest where
  | noneD : Dest
  | strD : String → Dest
  | badD : String → Dest
deriving DecidableEq, Repr

/-- Observable I/O effects of one rank's `spickle_node_list` call: the blob
pickled to file (if any), lines written to stderr, and a raised exception
(if any).  The source has no `try` around this code, so anything raised
propagates. -/
structure SpickleIO where
  blob : Option NlFieldDict
  stderrMsgs : List String
  raised : Option String
deriving DecidableEq, Repr

/-- Full model of `spickle_node_list` as executed on rank `rank` of a
group whose per-rank field data is `rds`: build the dict from the
all-reduced global fields (no rank guard in lines 98–123), then, on rank 0
only, either pickle it (string filename), warn on stderr (non-string,
non-`None` filename, lines 133–137 — no exception is raised), or do
nothing (`None`).  A failed index access in the fill loop is an
`IndexError` on every rank. -/
def spickle_node_list (rds : List RankData) (name : String) (rank : Nat)
    (filename : Dest) : Option NlFieldDict × SpickleIO :=
  match fillDict name (globalFields rds) (nbGlobalNodes rds) with
  | none => (none, { blob := none, stderrMsgs := [], raised := some "IndexError" })
  | some d =>
      if rank = 0 then
        match filename with
        | Dest.noneD => (some d, { blob := none, stderrMsgs := [], raised := none })
        | Dest.strD _ => (some d, { blob := some d, stderrMsgs := [], raised := none })
        | Dest.badD ty =>
            (some d,
             { blob := none,
               stderrMsgs := ["Dict NOT pickled to file because argument 2 is " ++
                 ty ++ " instead of <type 'str'>"],
               raised := none })
      else (some d, { blob := none, stderrMsgs := [], raised := none })

/-! ## Basic lemmas about the collectives and the zip -/

theorem allreduceConcat_eq_flatten {α : Type} (xss : List (List α)) :
    allreduceConcat xss = xss.flatten := by
  suffices h : ∀ (a : List α), xss.foldl (fun a b => a ++ b) a = a ++ xss.flatten by
    simpa [allreduceConcat] using h []
  induction xss with
  | nil => intro a; simp
  | cons y ys ih => intro a; simp [List.foldl_cons, ih]

theorem allreduceSum_eq_sum (xs : List Nat) : allreduceSum xs = xs.sum := by
  suffices h : ∀ a, xs.foldl (fun a b => a + b) a = a + xs.sum by
    simpa [allreduceSum] using h 0
  induction xs with
  | nil => intro a; simp
  | cons y ys ih => intro a; simp [List.foldl_cons, ih]; ring

theorem zipFields_maps (n : Nat) :
    ∀ (xs vs : List Vec3) (ms rs us ps ts : List ℚ) (hs : List SymTensor),
      xs.length = n → vs.length = n → ms.length = n → rs.length = n →
      us.length = n → ps.length = n → ts.length = n → hs.length = n →
      (zipFields xs vs ms rs us ps ts hs).map (fun r => r.pos) = xs ∧
      (zipFields xs vs ms rs us ps ts hs).map (fun r => r.vel) = vs ∧
      (zipFields xs vs ms rs us ps ts hs).map (fun r => r.m) = ms ∧
      (zipFields xs vs ms rs us ps ts hs).map (fun r => r.rho) = rs ∧
      (zipFields xs vs ms rs us ps ts hs).map (fun r => r.u) = us ∧
      (zipFields xs vs ms rs us ps ts hs).map (fun r => r.p) = ps ∧
      (zipFields xs vs ms rs us ps ts hs).map (fun r => r.T) = ts ∧
      (zipFields xs vs ms rs us ps ts hs).map (fun r => r.H) = hs := by
  induction n with
  | zero =>
      intro xs vs ms rs us ps ts hs hx hv hm hr hu hp ht hh
      rw [List.length_eq_zero] at hx hv hm hr hu hp ht hh
      subst hx; subst hv; subst hm; subst hr; subst hu; subst hp; subst ht
      subst hh
      simp [zipFields]
  | succ k ih =>
      intro xs vs ms rs us ps ts hs hx hv hm hr hu hp ht hh
      match xs, vs, ms, rs, us, ps, ts, hs with
      | x :: xs, v :: vs, m :: ms, r :: rs, u :: us, p :: ps, t :: ts, hh0 :: hs =>
        simp only [List.length_cons, Nat.succ.injEq] at hx hv hm hr hu hp ht hh
        have := ih xs vs ms rs us ps ts hs hx hv hm hr hu hp ht hh
        simp [zipFields, this.1, this.2.1, this.2.2.1, this.2.2.2.1,
              this.2.2.2.2.1, this.2.2.2.2.2.1, this.2.2.2.2.2.2.1,
              this.2.2.2.2.2.2.2]

theorem localFields_length (rd : RankData) (h : rd.WF) :
    (localFields rd).length = rd.numInternalNodes := by
  obtain ⟨hx, hv, hm, hr, hu, hp, ht, hh⟩ := h
  have := (zipFields_maps rd.numInternalNodes rd.xloc rd.vloc rd.mloc rd.rloc
    rd.uloc rd.ploc rd.Tloc rd.Hloc hx hv hm hr hu hp ht hh).1
  have hlen : ((localFields rd).map (fun r => r.pos)).length = rd.xloc.length := by
    rw [localFields, this]
  simpa using hlen.trans hx

theorem globalFields_length (rds : List RankData) (h : ∀ rd ∈ rds, rd.WF) :
    (globalFields rds).length = nbGlobalNodes rds := by
  rw [globalFields, allreduceConcat_eq_flatten, List.length_flatten,
      nbGlobalNodes, allreduceSum_eq_sum, List.map_map]
  congr 1
  apply List.map_congr_left
  intro rd hrd
  exact localFields_length rd (h rd hrd)

theorem fillFrom_eq_foldl (gf : List NodeRec) :
    ∀ (rem k : Nat) (d : NlFieldDict), k + rem ≤ gf.length →
      fillFrom gf d k rem = some (((gf.drop k).take rem).foldl appendRec d) := by
  intro rem
  induction rem with
  | zero => intro k d _; simp [fillFrom]
  | succ m ih =>
      intro k d hle
      have hk : k < gf.length := by omega
      have hget : gf[k]? = some gf[k] := List.getElem?_eq_getElem hk
      have hdrop : gf.drop k = gf[k] :: gf.drop (k + 1) :=
        List.drop_eq_getElem_cons hk
      have step : fillFrom gf d k (m + 1) =
          fillFrom gf (appendRec d gf[k]) (k + 1) m := by
        rw [fillFrom, hget]
      rw [step, ih (k + 1) (appendRec d gf[k]) (by omega), hdrop,
          List.take_succ_cons, List.foldl_cons]

theorem foldl_appendRec_fields (l : List NodeRec) :
    ∀ d : NlFieldDict,
      (l.foldl appendRec d).name = d.name ∧
      (l.foldl appendRec d).x = d.x ++ l.map (fun r => (r.pos.x, r.pos.y, r.pos.z)) ∧
      (l.foldl appendRec d).v = d.v ++ l.map (fun r => (r.vel.x, r.vel.y, r.vel.z)) ∧
      (l.foldl appendRec d).m = d.m ++ l.map (fun r => r.m) ∧
      (l.foldl appendRec d).rho = d.rho ++ l.map (fun r => r.rho) ∧
      (l.foldl appendRec d).p = d.p ++ l.map (fun r => r.p) ∧
      (l.foldl appendRec d).T = d.T ++ l.map (fun r => r.T) ∧
      (l.foldl appendRec d).U = d.U ++ l.map (fun r => r.u) ∧
      (l.foldl appendRec d).h =
        d.h ++ l.map (fun r => (r.H.invEig.x, r.H.invEig.y, r.H.invEig.z)) := by
  induction l with
  | nil => intro d; simp
  | cons r rest ih =>
      intro d
      obtain ⟨h1, h2, h3, h4, h5, h6, h7, h8, h9⟩ := ih (appendRec d r)
      refine ⟨?_, ?_, ?_, ?_, ?_, ?_, ?_, ?_, ?_⟩
      · rw [List.foldl_cons, h1]; simp [appendRec]
      · rw [List.foldl_cons, h2]; simp [appendRec]
      · rw [List.foldl_cons, h3]; simp [appendRec]
      · rw [List.foldl_cons, h4]; simp [appendRec]
      · rw [List.foldl_cons, h5]; simp [appendRec]
      · rw [List.foldl_cons, h6]; simp [appendRec]
      · rw [List.foldl_cons, h7]; simp [appendRec]
      · rw [List.foldl_cons, h8]; simp [appendRec]
      · rw [List.foldl_cons, h9]; simp [appendRec]

theorem fillDict_eq (name : String) (gf : List NodeRec) :
    fillDict name gf gf.length =
      some (gf.foldl appendRec (emptyDict name)) := by
  have := fillFrom_eq_foldl gf gf.length 0 (emptyDict name) (by omega)
  simpa [fillDict] using this

theorem spickle_fst (rds : List RankData) (name : String) (rank : Nat)
    (filename : Dest) :
    (spickle_node_list rds name rank filename).1 =
      fillDict name (globalFields rds) (nbGlobalNodes rds) := by
  unfold spickle_node_list
  cases h : fillDict name (globalFields rds) (nbGlobalNodes rds) with
  | none => simp
  | some d =>
      by_cases hr : rank = 0
      · cases filename <;> simp [hr]
      · simp [hr]

/-! ## Python string formatting

`pflatten_node_list` formats every numeric field with `"{0:+12.5e}"`
(always-signed scientific notation, 5 digits after the decimal point,
minimum field width 12) and the id column with `"{:2d}"`.  The model below
implements that formatting exactly on rationals, using only `Nat`/`Int`
arithmetic (decimal digit extraction, floor division, round-half-even). -/

/-- Decimal digits of `n`, least significant first; the first argument is
recursion fuel (`n` itself always suffices since `n / 10 < n`). -/
def digitsRevAux : Nat → Nat → List Nat
  | _, 0 => []
  | 0, _ => []
  | fuel + 1, n + 1 => ((n + 1) % 10) :: digitsRevAux fuel ((n + 1) / 10)

/-- Decimal digits of `n`, most significant first (empty for `0`). -/
def digitsOf (n : Nat) : List Nat :=
  (digitsRevAux n n).reverse

/-- The character for one decimal digit. -/
def digitChar (d : Nat) : Char :=
  Char.ofNat (48 + d)

/-- Python `str(n)` for a natural number. -/
def natToDecimal (n : Nat) : String :=
  if n = 0 then "0" else String.mk ((digitsOf n).map digitChar)

/-- Python `str(n)` for an integer. -/
def intToDecimal (n : Int) : String :=
  if n < 0 then "-" ++ natToDecimal n.natAbs else natToDecimal n.natAbs

/-- Left-pad a string with spaces to a minimum width (Python's numeric
default alignment). -/
def padLeft (w : Nat) (s : String) : String :=
  String.mk (List.replicate (w - s.length) ' ') ++ s

/-- Python `"{:2d}".format(n)`: decimal digits, right-aligned to a minimum
width of 2. -/
def fmtD2 (n : Int) : String :=
  padLeft 2 (intToDecimal n)

/-- Decide `10 ^ d ≤ p / den` for a positive rational given by numerator
`p` and denominator `den`, by cross-multiplying into `Nat` arithmetic. -/
def tenPowLeAbs : Int → Nat → Nat → Bool
  | Int.ofNat k, p, den => decide (10 ^ k * den ≤ p)
  | Int.negSucc k, p, den => decide (den ≤ 10 ^ (k + 1) * p)

/-- Round `p / q` (with `q > 0`) to the nearest natural number, ties to
even — the rounding used by Python's float formatting. -/
def roundHalfEvenNat (p q : Nat) : Nat :=
  let fl := p / q
  let r := p % q
  if 2 * r < q then fl
  else if q < 2 * r then fl + 1
  else if fl % 2 = 0 then fl else fl + 1

/-- The integer mantissa of `p / den` scaled to `prec` fractional digits:
round `(p / den) * 10 ^ (prec - e)` half-even, staying in `Nat`. -/
def scaledMantissa (prec : Nat) (p den : Nat) (e : Int) : Nat :=
  match (prec : Int) - e with
  | Int.ofNat k => roundHalfEvenNat (p * 10 ^ k) den
  | Int.negSucc k => roundHalfEvenNat p (den * 10 ^ (k + 1))

/-- The exponent field of Python's e-notation: explicit sign, at least two
digits. -/
def expString (e : Int) : String :=
  (if e < 0 then "-" else "+") ++
    (if e.natAbs < 10 then "0" ++ natToDecimal e.natAbs
     else natToDecimal e.natAbs)

/-- The `prec + 1` mantissa digit positions displayed for a rounded
mantissa `m`: its decimal digits, zero-padded on the right to exactly
`prec + 1` positions (Python's e-format always prints one integer digit
and `prec` fractional digits). -/
def mantissaDigits (prec m : Nat) : List Nat :=
  ((digitsOf m) ++ List.replicate (prec + 1) 0).take (prec + 1)

/-- Python `"{:+.Ne}".format(q)` with `N = prec`: sign, one integer digit,
`.`, exactly `prec` fractional digits, `e`, signed two-digit-minimum
exponent.  The decimal exponent is located from the digit counts of
numerator and denominator and corrected by one comparison; the mantissa is
rounded half-even and renormalized if rounding overflows to the next
power of ten. -/
def sciCore (prec : Nat) (q : ℚ) : String :=
  let sign := if q.num < 0 then "-" else "+"
  if q.num = 0 then
    sign ++ "0." ++ String.mk (List.replicate prec '0') ++ "e+00"
  else
    let p := q.num.natAbs
    let d0 : Int := ((digitsOf p).length : Int) - ((digitsOf q.den).length : Int)
    let e0 : Int := if tenPowLeAbs d0 p q.den then d0 else d0 - 1
    let m0 : Nat := scaledMantissa prec p q.den e0
    let m : Nat := if m0 = 10 ^ (prec + 1) then 10 ^ prec else m0
    let e1 : Int := if m0 = 10 ^ (prec + 1) then e0 + 1 else e0
    let ds6 : List Nat := mantissaDigits prec m
    sign ++ String.mk [digitChar (ds6.headD 0)] ++ "." ++
      String.mk ((ds6.drop 1).map digitChar) ++ "e" ++ expString e1

/-- Python `"{0:+12.5e}".format(q)`, the format applied to every numeric
field value written by `pflatten_node_list` (lines 225–233). -/
def fmtE12_5 (q : ℚ) : String :=
  padLeft 12 (sciCore 5 q)

/-- Sanity check: the format model reproduces CPython's output of
`"{0:+12.5e}".format(...)` and `"{:2d}".format(...)` on sample values. -/
theorem formatter_matches_python_samples :
    fmtE12_5 (123456 : ℚ) = "+1.23456e+05" ∧
    fmtE12_5 (0 : ℚ) = "+0.00000e+00" ∧
    fmtE12_5 (mkRat (-1) 8) = "-1.25000e-01" ∧
    sciCore 5 (999999999 : ℚ) = "+1.00000e+09" ∧
    sciCore 5 (mkRat 1 3) = "+3.33333e-01" ∧
    fmtD2 (0 : Int) = " 0" ∧
    fmtD2 (12 : Int) = "12" :=
  ⟨by rfl, by rfl, by rfl, by rfl, by rfl, by rfl, by rfl⟩

/-! ## The table line and header written by `pflatten_node_list` -/

/-- The line assembled for one node at lines 224–234 of `shelpers.py`:
`id  x  y  z  vx  vy  vz  m  rho  p  T  U  hmin  hmax`, each chunk
followed by two spaces, terminated by a newline.  `hmin`/`hmax` are the
smallest/largest eigenvalue of the inverse smoothing tensor. -/
def mkLine (nl_id : Int) (x v : Vec3) (m rho p T u : ℚ) (H : SymTensor) :
    String :=
  fmtD2 nl_id ++ "  " ++
  fmtE12_5 x.x ++ "  " ++ fmtE12_5 x.y ++ "  " ++ fmtE12_5 x.z ++ "  " ++
  fmtE12_5 v.x ++ "  " ++ fmtE12_5 v.y ++ "  " ++ fmtE12_5 v.z ++ "  " ++
  fmtE12_5 m ++ "  " ++
  fmtE12_5 rho ++ "  " ++
  fmtE12_5 p ++ "  " ++
  fmtE12_5 T ++ "  " ++
  fmtE12_5 u ++ "  " ++
  fmtE12_5 H.invEig.minElement ++ "  " ++
  fmtE12_5 H.invEig.maxElement ++ "  " ++
  "\n"

/-- `mkLine` applied to the components of one zipped record. -/
def mkLineRec (nl_id : Int) (r : NodeRec) : String :=
  mkLine nl_id r.pos r.vel r.m r.rho r.p r.T r.u r.H

/-- The fixed text of `header_template` before the `format` placeholder. -/
def headerPre : String :=
  "\n################################################################################\n" ++
  "# This file contains output data from a Spheral++ simulation, including all \n" ++
  "# field variables as well as some diagnostic data and node meta data. This\n" ++
  "# file should contain "

/-- The fixed text of `header_template` after the `format` placeholder. -/
def headerPost : String :=
  " data lines, one per SPH node used in the simulation.\n" ++
  "# Line order is not significant and is not guaranteed to match the node ordering\n" ++
  "# during the run, which itself is not significant. The columns contain field\n" ++
  "# values in whatever units where used in the simulation. Usually MKS.\n" ++
  "# Columns are:\n" ++
  "#    | id | x | y | z | vx | vy | vz | m | rho | p | T | U | hmin | hmax |\n" ++
  "#\n" ++
  "# Column legend:\n" ++
  "#    \n" ++
  "#        id - an integer identifier of the node list this node came from\n" ++
  "#     x,y,z - node space coordinates \n" ++
  "#  vx,vy,vz - node velocity components\n" ++
  "#         m - node mass\n" ++
  "#       rho - mass density\n" ++
  "#         p - pressure\n" ++
  "#         T - temperature\n" ++
  "#         U - specific internal energy\n" ++
  "# hmin,hmax - smallest and largest half-axes of the smoothing ellipsoid \n" ++
  "#\n" ++
  "# Tip: load table into python with np.load()\n" ++
  "#\n" ++
  "################################################################################\n"

/-- `header = header_template.format(nbGlobalNodes)` (lines 191 and 276). -/
def headerText (n : Nat) : String :=
  headerPre ++ natToDecimal n ++ headerPost

/-! ## The rank-turn write loop of `pflatten_node_list` (lines 219–240)

The destination file is modelled as the list of strings written to it, in
write order.  Each rank writes one `mkLine` string per locally-owned
internal node; an out-of-range field access would be a Python
`IndexError`, modelled by `none`. -/

/-- The line written for node `nk` of a rank, reading the parallel
per-field sequences exactly as lines 224–233 index them. -/
def pflattenLine (nl_id : Int) (rd : RankData) (nk : Nat) : Option String :=
  match rd.xloc[nk]?, rd.vloc[nk]?, rd.mloc[nk]?, rd.rloc[nk]?, rd.ploc[nk]?,
      rd.Tloc[nk]?, rd.uloc[nk]?, rd.Hloc[nk]? with
  | some x, some v, some m, some r, some p, some T, some u, some hh =>
      some (mkLine nl_id x v m r p T u hh)
  | _, _, _, _, _, _, _, _ => none

/-- The loop `for nk in range(nl.numInternalNodes)` from index `nk` with
`rem` iterations left, collecting the lines this rank writes. -/
def rankLinesLoop (nl_id : Int) (rd : RankData) (nk : Nat) :
    Nat → Option (List String)
  | 0 => some []
  | rem + 1 =>
      match pflattenLine nl_id rd nk, rankLinesLoop nl_id rd (nk + 1) rem with
      | some l, some ls => some (l :: ls)
      | _, _ => none

/-- All lines one rank appends during its turn. -/
def pflattenRankLines (nl_id : Int) (rd : RankData) : Option (List String) :=
  rankLinesLoop nl_id rd 0 rd.numInternalNodes

/-- The `for proc in range(mpi.procs)` loop: barriers serialize the turns
in ascending rank order, so the file grows by each rank's lines in rank
order.  `file` is the content already present when the loop starts. -/
def writeTurns (nl_id : Int) : List RankData → List String →
    Option (List String)
  | [], file => some file
  | rd :: rest, file =>
      match pflattenRankLines nl_id rd with
      | some ls => writeTurns nl_id rest (file ++ ls)
      | none => none

/-- `pflatten_node_list(nl, filename, do_header, nl_id)` as a file
transformer: with `do_header` the file is truncated and the header
(computed from the global node count reduction at line 190) written by
rank 0; without it the lines are appended to the previous content
`prev`.  Then the ranks write their lines in ascending rank order. -/
def pflatten_node_list (nl_id : Int) (do_header : Bool) (prev : List String)
    (rds : List RankData) : Option (List String) :=
  writeTurns nl_id rds
    (if do_header then [headerText (nbGlobalNodes rds)] else prev)

/-! ## `pflatten_node_list_list` (lines 248–292) -/

/-- The header loop at lines 273–275: starting from 0, add each
collection's own `mpi.allreduce(nl.numInternalNodes, mpi.SUM)`.  The
second component counts the reduction calls made (one per collection). -/
def headerLoopList (nls : List (List RankData)) : Nat × Nat :=
  nls.foldl (fun acc nl => (acc.1 + nbGlobalNodes nl, acc.2 + 1)) (0, 0)

/-- The loop at lines 285–287: `pflatten_node_list(nls[k], filename,
do_header=False, nl_id=k)` for `k = 0, 1, …`, each call appending to the
file produced by the previous one. -/
def writeColls : Nat → List (List RankData) → List String →
    Option (List String)
  | _, [], file => some file
  | k, c :: rest, file =>
      match pflatten_node_list (Int.ofNat k) false file c with
      | some file2 => writeColls (k + 1) rest file2
      | none => none

/-- `pflatten_node_list_list(nls, filename, do_header)` as a file
transformer: optionally truncate and write one shared header with the
summed global count, then flatten each collection without a header,
passing its position as `nl_id`. -/
def pflatten_node_list_list (nls : List (List RankData)) (do_header : Bool)
    (prev : List String) : Option (List String) :=
  writeColls 0 nls
    (if do_header then [headerText (headerLoopList nls).1] else prev)

/-- The expected per-collection blocks of data lines: collection at
position `k` (counting from `j`) contributes one `mkLineRec` line per
particle, ranks in ascending order. -/
def collBlocks (j : Nat) : List (List RankData) → List (List String)
  | [] => []
  | c :: rest =>
      (c.map (fun rd => (localFields rd).map (mkLineRec (Int.ofNat j)))).flatten ::
        collBlocks (j + 1) rest

/-! ## Per-rank event traces of `pflatten_node_list`

To reason about the ordering of collective operations and file writes each
rank performs, the body of `pflatten_node_list` is also modelled as the
sequence of observable events it executes on a given rank. -/

/-- Observable events of one rank: the global-count reduction (line 190),
rank 0's header write (lines 192–196), opening the file in append mode,
writing one data line, closing, and the barrier at line 239. -/
inductive Ev where
  | reduceSumE : Ev
  | headerWriteE : Ev
  | openAppendE : Ev
  | dataWriteE : Ev
  | closeE : Ev
  | barrierE : Ev
deriving DecidableEq, Repr

/-- Events executed by rank `r` in iteration `proc` of the turn loop
(lines 220–240): only when `proc == r` does the rank open, write its
`counts[r]` lines and close; every rank then executes the barrier. -/
def turnEvents (counts : List Nat) (r proc : Nat) : List Ev :=
  (if proc = r then
     [Ev.openAppendE] ++ List.replicate (counts.getD r 0) Ev.dataWriteE ++
       [Ev.closeE]
   else []) ++ [Ev.barrierE]

/-- The full event trace of rank `r` in `pflatten_node_list` over a group
whose per-rank internal node counts are `counts` (`mpi.procs =
counts.length`): the header phase (lines 188–197; the reduction runs on
every rank, the header write only on rank 0) followed by the turn loop. -/
def pflattenTrace (counts : List Nat) (r : Nat) (do_header : Bool) :
    List Ev :=
  (if do_header then
     [Ev.reduceSumE] ++ (if r = 0 then [Ev.headerWriteE] else [])
   else []) ++
  (List.range counts.length).flatMap (turnEvents counts r)

/-- `true` iff the trace performs no data write strictly before its first
barrier (scanning stops at the first barrier or data write). -/
def noDataWriteBeforeBarrier : List Ev → Bool
  | [] => true
  | Ev.barrierE :: _ => true
  | Ev.dataWriteE :: _ => false
  | _ :: rest => noDataWriteBeforeBarrier rest

/-- `true` iff a header write occurs strictly before any data write in the
trace (scanning stops at the first header write or data write). -/
def headerBeforeData : List Ev → Bool
  | [] => true
  | Ev.headerWriteE :: _ => true
  | Ev.dataWriteE :: _ => false
  | _ :: rest => headerBeforeData rest

/-- Number of barriers a trace executes. -/
def countBarriers (tr : List Ev) : Nat :=
  tr.count Ev.barrierE

/-! ## Python `isinstance` semantics for the `nl_id` validation

Lines 185–186 of `shelpers.py`:
`assert isinstance(nl_id, int)` and `assert not isinstance(nl_id, bool)`.
In Python, `bool` is a subclass of `int`, so `isinstance(True, int)` is
`True`; the second assert exists precisely to reject booleans. -/

/-- A Python value that would pass for an `int`: either a genuine integer
or a boolean (`bool` being a subtype of `int`). -/
inductive PyIntLike where
  | pyBool : Bool → PyIntLike
  | pyInt : Int → PyIntLike
deriving DecidableEq, Repr

/-- Python `isinstance(v, int)`: `True` for both integers and booleans,
because `bool` derives from `int`. -/
def isinstanceInt : PyIntLike → Bool
  | _ => true

/-- Python `isinstance(v, bool)`. -/
def isinstanceBool : PyIntLike → Bool
  | PyIntLike.pyBool _ => true
  | PyIntLike.pyInt _ => false

/-- The two `nl_id` validation asserts at lines 185–186, combined: the
argument passes iff both asserts succeed. -/
def nlIdValidationPasses (v : PyIntLike) : Bool :=
  isinstanceInt v && !(isinstanceBool v)

/-! ## Counting significant mantissa digits of a formatted value -/

/-- Whether a character is a decimal digit. -/
def isDigitCh (c : Char) : Bool :=
  decide (48 ≤ c.toNat) && decide (c.toNat ≤ 57)

/-- Number of digit characters occurring strictly before the first `e`
(the exponent marker) — i.e. the number of mantissa digit positions of a
string in scientific notation. -/
def digitsBeforeE : List Char → Nat
  | [] => 0
  | c :: rest =>
      if c = 'e' then 0
      else (if isDigitCh c then 1 else 0) + digitsBeforeE rest

/-! ## Supporting lemmas for the table writer -/

theorem localFields_maps (rd : RankData) (h : rd.WF) :
    (localFields rd).map (fun r => r.pos) = rd.xloc ∧
    (localFields rd).map (fun r => r.vel) = rd.vloc ∧
    (localFields rd).map (fun r => r.m) = rd.mloc ∧
    (localFields rd).map (fun r => r.rho) = rd.rloc ∧
    (localFields rd).map (fun r => r.u) = rd.uloc ∧
    (localFields rd).map (fun r => r.p) = rd.ploc ∧
    (localFields rd).map (fun r => r.T) = rd.Tloc ∧
    (localFields rd).map (fun r => r.H) = rd.Hloc := by
  obtain ⟨hx, hv, hm, hr, hu, hp, ht, hh⟩ := h
  exact zipFields_maps rd.numInternalNodes rd.xloc rd.vloc rd.mloc rd.rloc
    rd.uloc rd.ploc rd.Tloc rd.Hloc hx hv hm hr hu hp ht hh

theorem pflattenLine_eq (nl_id : Int) (rd : RankData) (h : rd.WF) (nk : Nat) :
    pflattenLine nl_id rd nk =
      ((localFields rd)[nk]?).map (mkLineRec nl_id) := by
  obtain ⟨mx, mv, mm, mr, mu, mp2, mt, mh⟩ := localFields_maps rd h
  have gx : rd.xloc[nk]? = ((localFields rd)[nk]?).map (fun r => r.pos) := by
    rw [← mx, List.getElem?_map]
  have gv : rd.vloc[nk]? = ((localFields rd)[nk]?).map (fun r => r.vel) := by
    rw [← mv, List.getElem?_map]
  have gm : rd.mloc[nk]? = ((localFields rd)[nk]?).map (fun r => r.m) := by
    rw [← mm, List.getElem?_map]
  have gr : rd.rloc[nk]? = ((localFields rd)[nk]?).map (fun r => r.rho) := by
    rw [← mr, List.getElem?_map]
  have gu : rd.uloc[nk]? = ((localFields rd)[nk]?).map (fun r => r.u) := by
    rw [← mu, List.getElem?_map]
  have gp : rd.ploc[nk]? = ((localFields rd)[nk]?).map (fun r => r.p) := by
    rw [← mp2, List.getElem?_map]
  have gt : rd.Tloc[nk]? = ((localFields rd)[nk]?).map (fun r => r.T) := by
    rw [← mt, List.getElem?_map]
  have gh : rd.Hloc[nk]? = ((localFields rd)[nk]?).map (fun r => r.H) := by
    rw [← mh, List.getElem?_map]
  cases hL : (localFields rd)[nk]? with
  | none => simp only [pflattenLine, gx, gv, gm, gr, gu, gp, gt, gh, hL,
      Option.map_none']
  | some r => simp only [pflattenLine, gx, gv, gm, gr, gu, gp, gt, gh, hL,
      Option.map_some', mkLineRec]

theorem rankLinesLoop_eq (nl_id : Int) (rd : RankData) (h : rd.WF) :
    ∀ (rem nk : Nat), nk + rem ≤ (localFields rd).length →
      rankLinesLoop nl_id rd nk rem =
        some ((((localFields rd).drop nk).take rem).map (mkLineRec nl_id)) := by
  intro rem
  induction rem with
  | zero => intro nk _; simp [rankLinesLoop]
  | succ m ih =>
      intro nk hle
      have hk : nk < (localFields rd).length := by omega
      have hget : (localFields rd)[nk]? = some (localFields rd)[nk] :=
        List.getElem?_eq_getElem hk
      have hline : pflattenLine nl_id rd nk =
          some (mkLineRec nl_id (localFields rd)[nk]) := by
        rw [pflattenLine_eq nl_id rd h nk, hget, Option.map_some']
      have hdrop : (localFields rd).drop nk =
          (localFields rd)[nk] :: (localFields rd).drop (nk + 1) :=
        List.drop_eq_getElem_cons hk
      rw [rankLinesLoop, hline, ih (nk + 1) (by omega), hdrop,
          List.take_succ_cons, List.map_cons]

theorem pflattenRankLines_eq (nl_id : Int) (rd : RankData) (h : rd.WF) :
    pflattenRankLines nl_id rd =
      some ((localFields rd).map (mkLineRec nl_id)) := by
  have hlen := localFields_length rd h
  have h2 := rankLinesLoop_eq nl_id rd h rd.numInternalNodes 0 (by omega)
  rw [List.drop_zero, List.take_of_length_le (by omega)] at h2
  unfold pflattenRankLines
  exact h2

theorem writeTurns_eq (nl_id : Int) :
    ∀ (rds : List RankData) (file : List String),
      (∀ rd ∈ rds, rd.WF) →
      writeTurns nl_id rds file =
        some (file ++
          (rds.map (fun rd => (localFields rd).map (mkLineRec nl_id))).flatten) := by
  intro rds
  induction rds with
  | nil => intro file _; simp [writeTurns]
  | cons rd rest ih =>
      intro file h
      have hrd : rd.WF := h rd (by simp)
      have hrest : ∀ x ∈ rest, x.WF := fun x hx => h x (by simp [hx])
      have step : writeTurns nl_id (rd :: rest) file =
          writeTurns nl_id rest
            (file ++ (localFields rd).map (mkLineRec nl_id)) := by
        rw [writeTurns, pflattenRankLines_eq nl_id rd hrd]
      rw [step, ih (file ++ (localFields rd).map (mkLineRec nl_id)) hrest]
      simp

theorem pflatten_node_list_eq (nl_id : Int) (rds : List RankData)
    (h : ∀ rd ∈ rds, rd.WF) :
    pflatten_node_list nl_id true [] rds =
      some (headerText (nbGlobalNodes rds) ::
        (rds.map (fun rd => (localFields rd).map (mkLineRec nl_id))).flatten) := by
  rw [pflatten_node_list, if_pos rfl, writeTurns_eq nl_id rds _ h]
  simp

theorem dataLines_length (nl_id : Int) (rds : List RankData)
    (h : ∀ rd ∈ rds, rd.WF) :
    ((rds.map (fun rd => (localFields rd).map (mkLineRec nl_id))).flatten).length =
      nbGlobalNodes rds := by
  rw [List.length_flatten, nbGlobalNodes, allreduceSum_eq_sum, List.map_map]
  congr 1
  apply List.map_congr_left
  intro rd hrd
  simp [localFields_length rd (h rd hrd)]

theorem mkLine_leading (nl_id : Int) (x v : Vec3) (m rho p T u : ℚ)
    (H : SymTensor) :
    ∃ rest, mkLine nl_id x v m rho p T u H = fmtD2 nl_id ++ "  " ++ rest :=
  ⟨fmtE12_5 x.x ++ "  " ++ fmtE12_5 x.y ++ "  " ++ fmtE12_5 x.z ++ "  " ++
   fmtE12_5 v.x ++ "  " ++ fmtE12_5 v.y ++ "  " ++ fmtE12_5 v.z ++ "  " ++
   fmtE12_5 m ++ "  " ++ fmtE12_5 rho ++ "  " ++ fmtE12_5 p ++ "  " ++
   fmtE12_5 T ++ "  " ++ fmtE12_5 u ++ "  " ++
   fmtE12_5 H.invEig.minElement ++ "  " ++
   fmtE12_5 H.invEig.maxElement ++ "  " ++ "\n",
   by unfold mkLine; simp [String.append_assoc]⟩

theorem mkLineRec_leading (nl_id : Int) (r : NodeRec) :
    ∃ rest, mkLineRec nl_id r = fmtD2 nl_id ++ "  " ++ rest :=
  mkLine_leading nl_id r.pos r.vel r.m r.rho r.p r.T r.u r.H

/-! ## Supporting lemmas about the event traces -/

theorem count_barrier_turn (counts : List Nat) (r proc : Nat) :
    (turnEvents counts r proc).count Ev.barrierE = 1 := by
  by_cases h : proc = r <;>
    simp [turnEvents, h, List.count_append, List.count_replicate,
      List.count_cons, List.count_nil]

theorem countBarriers_trace (counts : List Nat) (r : Nat) (b : Bool) :
    countBarriers (pflattenTrace counts r b) = counts.length := by
  unfold countBarriers pflattenTrace
  rw [List.count_append]
  have h1 : ((if b then [Ev.reduceSumE] ++ (if r = 0 then [Ev.headerWriteE]
      else []) else []).count Ev.barrierE) = 0 := by
    cases b <;> by_cases hr : r = 0 <;> simp [hr]
  have h2 : ∀ l : List Nat,
      ((l.flatMap (turnEvents counts r)).count Ev.barrierE) = l.length := by
    intro l
    induction l with
    | nil => simp
    | cons a as ih =>
        simp [List.flatMap_cons, List.count_append, ih, count_barrier_turn]
        omega
  rw [h1, h2, List.length_range]
  omega

theorem noDataWrite_rank_pos (counts : List Nat) (r : Nat) (hr : 1 ≤ r)
    (b : Bool) :
    noDataWriteBeforeBarrier (pflattenTrace counts r b) = true := by
  have hr0 : ¬(r = 0) := by omega
  have h0r : ¬(0 = r) := by omega
  unfold pflattenTrace
  cases hn : counts.length with
  | zero => cases b <;> simp [hr0, noDataWriteBeforeBarrier]
  | succ n =>
      rw [List.range_succ_eq_map]
      cases b <;>
        simp [hr0, h0r, turnEvents, List.flatMap_cons,
          noDataWriteBeforeBarrier]

theorem headerBeforeData_rank0 (counts : List Nat) :
    headerBeforeData (pflattenTrace counts 0 true) = true := by
  unfold pflattenTrace
  simp [headerBeforeData]

theorem rank0_data_before_barrier (counts : List Nat)
    (h0 : 0 < counts.getD 0 0) (hlen : 0 < counts.length) :
    noDataWriteBeforeBarrier (pflattenTrace counts 0 true) = false := by
  cases counts with
  | nil => simp at hlen
  | cons c cs =>
      obtain ⟨k, rfl⟩ : ∃ k, c = k + 1 := by
        refine ⟨c - 1, ?_⟩
        simp [List.getD] at h0
        omega
      unfold pflattenTrace
      have hl2 : ((k + 1) :: cs).length = cs.length + 1 := by simp
      rw [hl2, List.range_succ_eq_map]
      simp [turnEvents, List.flatMap_cons, List.replicate_succ,
        noDataWriteBeforeBarrier]

/-! ## Supporting lemmas for `pflatten_node_list_list` -/

theorem headerLoopList_eq (nls : List (List RankData)) :
    headerLoopList nls = ((nls.map nbGlobalNodes).sum, nls.length) := by
  suffices h : ∀ t c, nls.foldl
      (fun acc nl => (acc.1 + nbGlobalNodes nl, acc.2 + 1)) (t, c) =
      (t + (nls.map nbGlobalNodes).sum, c + nls.length) by
    simpa [headerLoopList] using h 0 0
  induction nls with
  | nil => intro t c; simp
  | cons a as ih =>
      intro t c
      rw [List.foldl_cons, ih]
      simp [Prod.ext_iff]
      constructor <;> omega

theorem pflatten_append_eq (nl_id : Int) (file : List String)
    (rds : List RankData) (h : ∀ rd ∈ rds, rd.WF) :
    pflatten_node_list nl_id false file rds =
      some (file ++
        (rds.map (fun rd => (localFields rd).map (mkLineRec nl_id))).flatten) := by
  rw [pflatten_node_list, if_neg (by simp)]
  exact writeTurns_eq nl_id rds file h

theorem writeColls_eq :
    ∀ (nls : List (List RankData)) (k : Nat) (file : List String),
      (∀ c ∈ nls, ∀ rd ∈ c, rd.WF) →
      writeColls k nls file = some (file ++ (collBlocks k nls).flatten) := by
  intro nls
  induction nls with
  | nil => intro k file _; simp [writeColls, collBlocks]
  | cons c cs ih =>
      intro k file h
      have hc : ∀ rd ∈ c, rd.WF := h c (by simp)
      have hcs : ∀ x ∈ cs, ∀ rd ∈ x, rd.WF := fun x hx => h x (by simp [hx])
      have step : writeColls k (c :: cs) file =
          writeColls (k + 1) cs (file ++
            (c.map (fun rd =>
              (localFields rd).map (mkLineRec (Int.ofNat k)))).flatten) := by
        rw [writeColls, pflatten_append_eq (Int.ofNat k) file c hc]
      rw [step, ih (k + 1) _ hcs, collBlocks]
      simp

theorem collBlocks_leading :
    ∀ (nls : List (List RankData)) (j k : Nat) (b : List String),
      (collBlocks j nls)[k]? = some b →
      ∀ l ∈ b, ∃ rest, l = fmtD2 (Int.ofNat (j + k)) ++ "  " ++ rest := by
  intro nls
  induction nls with
  | nil => intro j k b hb; simp [collBlocks] at hb
  | cons c cs ih =>
      intro j k b hb
      cases k with
      | zero =>
          simp only [collBlocks, List.getElem?_cons_zero, Option.some.injEq] at hb
          subst hb
          intro l hl
          rw [List.mem_flatten] at hl
          obtain ⟨blk, hblk, hlblk⟩ := hl
          rw [List.mem_map] at hblk
          obtain ⟨rd, _, rfl⟩ := hblk
          rw [List.mem_map] at hlblk
          obtain ⟨r, _, rfl⟩ := hlblk
          simpa using mkLineRec_leading (Int.ofNat j) r
      | succ k2 =>
          simp only [collBlocks, List.getElem?_cons_succ] at hb
          have := ih (j + 1) k2 b hb
          have harith : j + 1 + k2 = j + (k2 + 1) := by omega
          rw [harith] at this
          exact this

/-! ## Supporting lemmas for the numeric format -/

theorem digitsRevAux_lt :
    ∀ (fuel n : Nat), ∀ d ∈ digitsRevAux fuel n, d < 10 := by
  intro fuel
  induction fuel with
  | zero =>
      intro n d hd
      cases n <;> simp [digitsRevAux] at hd
  | succ f ih =>
      intro n d hd
      cases n with
      | zero => simp [digitsRevAux] at hd
      | succ n2 =>
          rw [digitsRevAux] at hd
          rcases List.mem_cons.mp hd with h | h
          · subst h; exact Nat.mod_lt _ (by omega)
          · exact ih _ d h

theorem digitsOf_lt (n : Nat) : ∀ d ∈ digitsOf n, d < 10 := by
  intro d hd
  rw [digitsOf, List.mem_reverse] at hd
  exact digitsRevAux_lt n n d hd

theorem digitChar_isDigit (d : Nat) (h : d < 10) :
    isDigitCh (digitChar d) = true := by
  interval_cases d <;> decide

theorem digitChar_ne_e (d : Nat) (h : d < 10) : digitChar d ≠ 'e' := by
  interval_cases d <;> decide

theorem digitsBeforeE_cons_skip (c : Char) (h1 : isDigitCh c = false)
    (h2 : ¬(c = 'e')) (l : List Char) :
    digitsBeforeE (c :: l) = digitsBeforeE l := by
  rw [digitsBeforeE, if_neg h2, h1]
  simp

theorem digitsBeforeE_cons_digit (c : Char) (h1 : isDigitCh c = true)
    (h2 : ¬(c = 'e')) (l : List Char) :
    digitsBeforeE (c :: l) = 1 + digitsBeforeE l := by
  rw [digitsBeforeE, if_neg h2, h1]
  simp

theorem digitsBeforeE_e_head (l : List Char) :
    digitsBeforeE ('e' :: l) = 0 := by
  rw [digitsBeforeE, if_pos rfl]

theorem digitsBeforeE_digits_prefix (frac : List Nat) :
    (∀ d ∈ frac, d < 10) → ∀ l : List Char,
      digitsBeforeE (frac.map digitChar ++ l) = frac.length + digitsBeforeE l := by
  induction frac with
  | nil => intro _ l; simp
  | cons d rest ih =>
      intro h l
      have hd : d < 10 := h d (by simp)
      have hrest : ∀ x ∈ rest, x < 10 := fun x hx => h x (by simp [hx])
      rw [List.map_cons, List.cons_append,
          digitsBeforeE_cons_digit _ (digitChar_isDigit d hd)
            (digitChar_ne_e d hd), ih hrest l, List.length_cons]
      omega

theorem digitsBeforeE_spaces (k : Nat) :
    ∀ l : List Char,
      digitsBeforeE (List.replicate k ' ' ++ l) = digitsBeforeE l := by
  induction k with
  | zero => intro l; simp
  | succ k2 ih =>
      intro l
      rw [List.replicate_succ, List.cons_append,
          digitsBeforeE_cons_skip ' ' (by decide) (by decide), ih l]

theorem digitsBeforeE_shape (sgn : String) (hsgn : sgn = "+" ∨ sgn = "-")
    (hd : Nat) (hhd : hd < 10) (frac : List Nat)
    (hfrac : ∀ d ∈ frac, d < 10) (tail : String) :
    digitsBeforeE (sgn ++ String.mk [digitChar hd] ++ "." ++
      String.mk (frac.map digitChar) ++ "e" ++ tail).data =
      1 + frac.length := by
  have hdata : (sgn ++ String.mk [digitChar hd] ++ "." ++
      String.mk (frac.map digitChar) ++ "e" ++ tail).data =
      sgn.data ++ (digitChar hd :: '.' ::
        (frac.map digitChar ++ ('e' :: tail.data))) := by
    simp [String.data_append]
  rw [hdata]
  have hsgn0 : ∀ l : List Char, digitsBeforeE (sgn.data ++ l) = digitsBeforeE l := by
    intro l
    rcases hsgn with h | h <;> subst h <;>
      exact digitsBeforeE_cons_skip _ (by decide) (by decide) l
  rw [hsgn0,
      digitsBeforeE_cons_digit _ (digitChar_isDigit hd hhd) (digitChar_ne_e hd hhd),
      digitsBeforeE_cons_skip '.' (by decide) (by decide),
      digitsBeforeE_digits_prefix frac hfrac, digitsBeforeE_e_head]
  omega

theorem mantissaDigits_length (prec : Nat) (m : Nat) :
    (mantissaDigits prec m).length = prec + 1 := by
  rw [mantissaDigits, List.length_take, List.length_append,
      List.length_replicate]
  omega

theorem mantissaDigits_lt (prec : Nat) (m : Nat) :
    ∀ d ∈ mantissaDigits prec m, d < 10 := by
  intro d hd
  rw [mantissaDigits] at hd
  have hmem := List.mem_of_mem_take hd
  rcases List.mem_append.mp hmem with h | h
  · exact digitsOf_lt m d h
  · have := List.eq_of_mem_replicate h
    omega

theorem headD_lt (l : List Nat) (h : ∀ d ∈ l, d < 10) : l.headD 0 < 10 := by
  cases l with
  | nil => simp
  | cons a as => exact h a (by simp)

theorem sciCore_nonzero_shape (sgn : String) (hsgn : sgn = "+" ∨ sgn = "-")
    (m : Nat) (e : Int) :
    digitsBeforeE (sgn ++ String.mk [digitChar ((mantissaDigits 5 m).headD 0)] ++
      "." ++ String.mk (((mantissaDigits 5 m).drop 1).map digitChar) ++ "e" ++
      expString e).data = 6 := by
  rw [digitsBeforeE_shape sgn hsgn ((mantissaDigits 5 m).headD 0)
      (headD_lt _ (mantissaDigits_lt 5 m)) ((mantissaDigits 5 m).drop 1)
      (fun d hd => mantissaDigits_lt 5 m d (List.mem_of_mem_drop hd))
      (expString e)]
  rw [List.length_drop, mantissaDigits_length]

theorem sciCore_count (q : ℚ) : digitsBeforeE (sciCore 5 q).data = 6 := by
  by_cases h0 : q.num = 0
  · have hns : ¬(q.num < 0) := by omega
    simp only [sciCore, if_pos h0, if_neg hns]
    decide
  · simp only [sciCore, if_neg h0]
    exact sciCore_nonzero_shape (if q.num < 0 then "-" else "+")
      (by by_cases hn : q.num < 0 <;> simp [hn]) _ _

theorem fmtE12_5_count (q : ℚ) : digitsBeforeE (fmtE12_5 q).data = 6 := by
  have hdata : (fmtE12_5 q).data =
      List.replicate (12 - (sciCore 5 q).length) ' ' ++ (sciCore 5 q).data := by
    show (String.mk (List.replicate (12 - (sciCore 5 q).length) ' ') ++
      sciCore 5 q).data = _
    rw [String.data_append]
  rw [hdata, digitsBeforeE_spaces, sciCore_count]

theorem fmtE12_5_width (q : ℚ) : 12 ≤ (fmtE12_5 q).length := by
  have h : (fmtE12_5 q).length =
      (12 - (sciCore 5 q).length) + (sciCore 5 q).length := by
    show (String.mk (List.replicate (12 - (sciCore 5 q).length) ' ') ++
      sciCore 5 q).length = _
    rw [String.length_append]
    congr 1
    show (List.replicate (12 - (sciCore 5 q).length) ' ').length = _
    simp
  omega

theorem sciCore_sign_head (q : ℚ) :
    (sciCore 5 q).data.head? = some (if q.num < 0 then '-' else '+') := by
  by_cases h0 : q.num = 0
  · have hns : ¬(q.num < 0) := by omega
    simp only [sciCore, if_pos h0, if_neg hns]
    decide
  · simp only [sciCore, if_neg h0]
    by_cases hn : q.num < 0 <;> simp [hn, String.data_append]

/-! ## Concrete sample data used by the witnesses -/

/-- A rank owning 2 internal nodes, with well-formed field sequences. -/
def rdA : RankData :=
  { numInternalNodes := 2,
    xloc := [⟨0, 0, 0⟩, ⟨1, 1, 1⟩],
    vloc := [⟨0, 1, 0⟩, ⟨1, 0, 0⟩],
    mloc := [1, 2], rloc := [3, 4], uloc := [5, 6],
    ploc := [7, 8], Tloc := [9, 10],
    Hloc := [⟨⟨1, 2, 3⟩⟩, ⟨⟨2, 2, 2⟩⟩] }

/-- A rank owning 3 internal nodes, with well-formed field sequences. -/
def rdB : RankData :=
  { numInternalNodes := 3,
    xloc := [⟨2, 0, 0⟩, ⟨3, 0, 0⟩, ⟨4, 0, 0⟩],
    vloc := [⟨0, 0, 1⟩, ⟨0, 2, 0⟩, ⟨5, 0, 0⟩],
    mloc := [3, 4, 5], rloc := [1, 1, 2], uloc := [2, 3, 4],
    ploc := [1, 2, 3], Tloc := [4, 5, 6],
    Hloc := [⟨⟨1, 1, 2⟩⟩, ⟨⟨3, 1, 1⟩⟩, ⟨⟨1, 4, 1⟩⟩] }

/-! ## Statement abbreviations for the larger claims -/

/-- Property asserted by claim C2 about `pflatten_node_list` on a group
with per-rank data `rds` and collection id `nl_id`. -/
def C2Prop (nl_id : Int) (rds : List RankData) : Prop :=
  pflatten_node_list nl_id true [] rds =
    some (headerText (nbGlobalNodes rds) ::
      (rds.map (fun rd => (localFields rd).map (mkLineRec nl_id))).flatten) ∧
  ((rds.map (fun rd => (localFields rd).map (mkLineRec nl_id))).flatten).length
    = nbGlobalNodes rds ∧
  (∀ l ∈ (rds.map (fun rd => (localFields rd).map (mkLineRec nl_id))).flatten,
    ∃ rest, l = fmtD2 nl_id ++ "  " ++ rest) ∧
  (∀ r : Nat,
    countBarriers (pflattenTrace (rds.map (fun rd => rd.numInternalNodes)) r true)
      = rds.length)

/-- Property asserted by claim C3 about `pflatten_node_list_list`. -/
def C3Prop (nls : List (List RankData)) : Prop :=
  pflatten_node_list_list nls true [] =
    some (headerText ((nls.map nbGlobalNodes).sum) ::
      (collBlocks 0 nls).flatten) ∧
  (headerLoopList nls).1 = (nls.map nbGlobalNodes).sum ∧
  (headerLoopList nls).2 = nls.length ∧
  (∀ (k : Nat) (b : List String), (collBlocks 0 nls)[k]? = some b →
    ∀ l ∈ b, ∃ rest, l = fmtD2 (Int.ofNat k) ++ "  " ++ rest)

/-- Property asserted by claim C4 about the dict returned by
`spickle_node_list`. -/
def C4Prop (name : String) (rank : Nat) (filename : Dest)
    (rds : List RankData) : Prop :=
  (spickle_node_list rds name rank filename).1 =
    some { name := name,
           x := (globalFields rds).map (fun r => (r.pos.x, r.pos.y, r.pos.z)),
           v := (globalFields rds).map (fun r => (r.vel.x, r.vel.y, r.vel.z)),
           m := (globalFields rds).map (fun r => r.m),
           rho := (globalFields rds).map (fun r => r.rho),
           p := (globalFields rds).map (fun r => r.p),
           h := (globalFields rds).map
             (fun r => (r.H.invEig.x, r.H.invEig.y, r.H.invEig.z)),
           T := (globalFields rds).map (fun r => r.T),
           U := (globalFields rds).map (fun r => r.u) } ∧
  (globalFields rds).length = nbGlobalNodes rds

/-- Property asserted by the amended claim C5: a non-string destination
does not raise; the call completes, skips the blob, and rank 0 warns on
stderr. -/
def C5Prop (rds : List RankData) (name ty : String) (rank : Nat) : Prop :=
  (spickle_node_list rds name rank (Dest.badD ty)).2.raised = none ∧
  (spickle_node_list rds name rank (Dest.badD ty)).2.blob = none ∧
  (spickle_node_list rds name rank (Dest.badD ty)).1.isSome = true ∧
  (rank = 0 → (spickle_node_list rds name rank (Dest.badD ty)).2.stderrMsgs =
    ["Dict NOT pickled to file because argument 2 is " ++ ty ++
      " instead of <type 'str'>"]) ∧
  (¬(rank = 0) →
    (spickle_node_list rds name rank (Dest.badD ty)).2.stderrMsgs = [])

/-- Property asserted by the amended claim C6 about barrier/write order. -/
def C6Prop (counts : List Nat) (r : Nat) (b : Bool) : Prop :=
  (1 ≤ r → noDataWriteBeforeBarrier (pflattenTrace counts r b) = true) ∧
  headerBeforeData (pflattenTrace counts 0 true) = true ∧
  (0 < counts.getD 0 0 → 0 < counts.length →
    noDataWriteBeforeBarrier (pflattenTrace counts 0 true) = false) ∧
  countBarriers (pflattenTrace counts r b) = counts.length

/-! ## Helper lemmas for the claim theorems -/

theorem count_flatten_eq {α : Type} [DecidableEq α] (r : α) :
    ∀ ls : List (List α),
      (ls.flatten.count r) = (ls.map (List.count r)).sum := by
  intro ls
  induction ls with
  | nil => simp
  | cons a as ih => simp [List.count_append, ih]

theorem spickle_blob_rank (rds : List RankData) (name : String) (r : Nat)
    (f : Dest) (hr : ¬(r = 0)) :
    (spickle_node_list rds name r f).2.blob = none := by
  unfold spickle_node_list
  cases fillDict name (globalFields rds) (nbGlobalNodes rds) <;> simp [hr]

theorem spickle_dict_eq (rds : List RankData) (name : String) (rank : Nat)
    (filename : Dest) (h : ∀ rd ∈ rds, rd.WF) :
    (spickle_node_list rds name rank filename).1 =
      some { name := name,
             x := (globalFields rds).map (fun r => (r.pos.x, r.pos.y, r.pos.z)),
             v := (globalFields rds).map (fun r => (r.vel.x, r.vel.y, r.vel.z)),
             m := (globalFields rds).map (fun r => r.m),
             rho := (globalFields rds).map (fun r => r.rho),
             p := (globalFields rds).map (fun r => r.p),
             h := (globalFields rds).map
               (fun r => (r.H.invEig.x, r.H.invEig.y, r.H.invEig.z)),
             T := (globalFields rds).map (fun r => r.T),
             U := (globalFields rds).map (fun r => r.u) } := by
  rw [spickle_fst, ← globalFields_length rds h, fillDict_eq]
  congr 1
  obtain ⟨h1, h2, h3, h4, h5, h6, h7, h8, h9⟩ :=
    foldl_appendRec_fields (globalFields rds) (emptyDict name)
  simp only [emptyDict, List.nil_append] at h1 h2 h3 h4 h5 h6 h7 h8 h9
  ext1 <;> simp only [emptyDict] <;>
    simp [h1, h2, h3, h4, h5, h6, h7, h8, h9]

/-! ## The claims -/

/-- C1: for every partition of the particle collection into per-rank local
record sequences, the single concatenation reduction over zipped
per-particle tuples in `spickle_node_list` returns the concatenation of
the per-rank local sequences in ascending rank order; its length is the
sum of the per-rank local counts and every record occurs exactly as often
in the result as in the inputs (none duplicated, none dropped). -/
theorem claim1_aggregation_roundtrip (locals : List (List NodeRec)) :
    allreduceConcat locals = locals.flatten ∧
    (allreduceConcat locals).length = (locals.map List.length).sum ∧
    (∀ r : NodeRec,
      (allreduceConcat locals).count r = (locals.map (List.count r)).sum) := by
  refine ⟨allreduceConcat_eq_flatten locals, ?_, ?_⟩
  · rw [allreduceConcat_eq_flatten, List.length_flatten]
  · intro r
    rw [allreduceConcat_eq_flatten]
    exact count_flatten_eq r locals

/-- C2: `pflatten_node_list` with a header produces the header line
followed by exactly the concatenation, in ascending rank order, of one
formatted line per locally-owned particle of each rank; the number of data
lines is the reduced global count (so a rank with zero local particles
contributes zero lines); every line carries the supplied collection id as
its leading column; and every rank executes one barrier per rank
(`mpi.procs` barriers), whether or not it owns particles. -/
theorem claim2_writeTable (nl_id : Int) (rds : List RankData)
    (h : ∀ rd ∈ rds, rd.WF) : C2Prop nl_id rds := by
  refine ⟨pflatten_node_list_eq nl_id rds h, dataLines_length nl_id rds h,
    ?_, ?_⟩
  · intro l hl
    rw [List.mem_flatten] at hl
    obtain ⟨blk, hblk, hlblk⟩ := hl
    rw [List.mem_map] at hblk
    obtain ⟨rd, _, rfl⟩ := hblk
    rw [List.mem_map] at hlblk
    obtain ⟨r, _, rfl⟩ := hlblk
    exact mkLineRec_leading nl_id r
  · intro r
    rw [countBarriers_trace]
    simp

/-- Witness for C2 at the concrete scenario of the claim: 2 ranks owning
2 and 3 particles. -/
theorem claim2_witness :
    (∀ rd ∈ [rdA, rdB], rd.WF) ∧ C2Prop 0 [rdA, rdB] :=
  ⟨by decide, claim2_writeTable 0 [rdA, rdB] (by decide)⟩

/-- C3: `pflatten_node_list_list` with a header writes one shared header
whose row count is the sum of the collections' global counts (performing
one sum reduction per collection), then appends each collection's lines
without further headers, and every data line of the `k`-th collection
carries `k` as its leading identity column. -/
theorem claim3_writeAll (nls : List (List RankData))
    (h : ∀ c ∈ nls, ∀ rd ∈ c, rd.WF) : C3Prop nls := by
  have hdr := headerLoopList_eq nls
  refine ⟨?_, by rw [hdr], by rw [hdr], ?_⟩
  · rw [pflatten_node_list_list, if_pos rfl,
        writeColls_eq nls 0 _ h, hdr]
    simp
  · intro k b hb l hl
    have := collBlocks_leading nls 0 k b hb l hl
    simpa using this

/-- Witness for C3 at the concrete scenario of the claim: two collections
with identities 0 and 1. -/
theorem claim3_witness :
    (∀ c ∈ [[rdA], [rdB]], ∀ rd ∈ c, rd.WF) ∧ C3Prop [[rdA], [rdB]] :=
  ⟨by decide, claim3_writeAll [[rdA], [rdB]] (by decide)⟩

/-- C4: on well-formed field data the dict returned by `spickle_node_list`
holds exactly the keys `name, x, v, m, rho, p, h, T, U`; `x`, `v`, `h` are
lists of 3-tuples and `m, rho, p, T, U` lists of scalars, each obtained by
mapping the corresponding component over the reduced global record list —
hence one entry per global particle, in reduction order (the
`NlFieldDict` structure has exactly those nine fields). -/
theorem claim4_dict_shape (name : String) (rank : Nat) (filename : Dest)
    (rds : List RankData) (h : ∀ rd ∈ rds, rd.WF) :
    C4Prop name rank filename rds :=
  ⟨spickle_dict_eq rds name rank filename h, globalFields_length rds h⟩

/-- Witness for C4 on a 2-rank group. -/
theorem claim4_witness :
    (∀ rd ∈ [rdA, rdB], rd.WF) ∧ C4Prop "mantle" 0 Dest.noneD [rdA, rdB] :=
  ⟨by decide, claim4_dict_shape "mantle" 0 Dest.noneD [rdA, rdB] (by decide)⟩

/-- C5 counterexample: calling `spickle_node_list` on rank 0 with a
non-string destination does NOT fail with any error — the call completes
(`raised = none`), still returns the dict, and merely writes a warning to
stderr; this refutes the claim that a wrong-typed destination raises an
immediate `InvalidArgument` error. -/
theorem claim5_counterexample :
    (spickle_node_list [rdA] "nl" 0 (Dest.badD "<type 'int'>")).2.raised
      = none ∧
    (spickle_node_list [rdA] "nl" 0 (Dest.badD "<type 'int'>")).1.isSome
      = true ∧
    (spickle_node_list [rdA] "nl" 0
      (Dest.badD "<type 'int'>")).2.stderrMsgs.length = 1 := by
  refine ⟨by decide, by decide, by decide⟩

/-- C5 (amended): a non-string destination is not an error:
`spickle_node_list` completes normally with no exception raised, returns
the dict, writes no blob, and rank 0 (only) emits one explanatory warning
line on stderr. -/
theorem claim5_amended (rds : List RankData) (name ty : String) (rank : Nat)
    (hfill :
      (fillDict name (globalFields rds) (nbGlobalNodes rds)).isSome = true) :
    C5Prop rds name ty rank := by
  obtain ⟨d, hd⟩ := Option.isSome_iff_exists.mp hfill
  unfold C5Prop spickle_node_list
  rw [hd]
  by_cases hr : rank = 0 <;> simp [hr]

/-- Witness for the amended C5. -/
theorem claim5_witness :
    ((fillDict "nl" (globalFields [rdA]) (nbGlobalNodes [rdA])).isSome
      = true) ∧ C5Prop [rdA] "nl" "<type 'int'>" 0 :=
  ⟨by decide, claim5_amended [rdA] "nl" "<type 'int'>" 0 (by decide)⟩

/-- C6 counterexample: with 2 ranks owning 2 and 3 particles and a header
requested, rank 0's event trace performs a data write strictly before its
first barrier — there is no barrier between the header write and the first
data write, refuting the claim that all ranks synchronize on a barrier
before any rank performs a data write. -/
theorem claim6_counterexample :
    noDataWriteBeforeBarrier (pflattenTrace [2, 3] 0 true) = false := by
  decide

/-- C6 (amended): after the header is written there is no dedicated
barrier: rank 0 proceeds directly into the turn loop and writes its own
data before reaching its first barrier, while every rank `r ≥ 1` passes at
least one barrier before its first data write; the header write still
precedes rank 0's data writes in program order, and every rank executes
one barrier per rank of the group. -/
theorem claim6_amended (counts : List Nat) (r : Nat) (b : Bool) :
    C6Prop counts r b :=
  ⟨fun hr => noDataWrite_rank_pos counts r hr b,
   headerBeforeData_rank0 counts,
   fun h1 h2 => rank0_data_before_barrier counts h1 h2,
   countBarriers_trace counts r b⟩

/-- Witness for the amended C6 at 2 ranks owning 2 and 3 particles. -/
theorem claim6_witness : C6Prop [2, 3] 1 true :=
  claim6_amended [2, 3] 1 true

/-- C7 counterexample: the value `123456` is formatted by the
`"{0:+12.5e}"` model as `"+1.23456e+05"`, whose mantissa has 6 significant
digits, not 5 — refuting the claim that every numeric field value is
written in 5-significant-digit scientific notation. -/
theorem claim7_counterexample :
    fmtE12_5 (123456 : ℚ) = "+1.23456e+05" ∧
    ¬(digitsBeforeE (fmtE12_5 (123456 : ℚ)).data = 5) := by
  refine ⟨by rfl, by decide⟩

/-- C7 (amended): every numeric field value is formatted in fixed-width
(minimum 12 characters), explicitly signed scientific notation with 5
digits after the decimal point, i.e. 6 mantissa digits (6 significant
digits), not 5. -/
theorem claim7_amended (q : ℚ) :
    digitsBeforeE (fmtE12_5 q).data = 6 ∧
    12 ≤ (fmtE12_5 q).length ∧
    (sciCore 5 q).data.head? = some (if q.num < 0 then '-' else '+') :=
  ⟨fmtE12_5_count q, fmtE12_5_width q, sciCore_sign_head q⟩

/-- C8: the dict component returned by `spickle_node_list` is identical on
every rank (it is built on each rank from the same all-reduced global
sequence, with no rank guard), and a blob is written only on rank 0. -/
theorem claim8_every_rank_same_dict (rds : List RankData) (name : String)
    (r r2 : Nat) (f f2 : Dest) :
    (spickle_node_list rds name r f).1 = (spickle_node_list rds name r2 f2).1 ∧
    ((spickle_node_list rds name r f).2.blob.isSome = true → r = 0) := by
  constructor
  · rw [spickle_fst, spickle_fst]
  · intro hb
    by_contra hr
    rw [spickle_blob_rank rds name r f hr] at hb
    simp at hb

/-- Witness for C8: ranks 1 and 0 with different destination arguments
return the same dict, and rank 1 writes no blob. -/
theorem claim8_witness :
    (spickle_node_list [rdA, rdB] "nm" 1 (Dest.strD "f")).1 =
      (spickle_node_list [rdA, rdB] "nm" 0 Dest.noneD).1 ∧
    ((spickle_node_list [rdA, rdB] "nm" 1 (Dest.strD "f")).2.blob.isSome
      = true → 1 = 0) :=
  claim8_every_rank_same_dict [rdA, rdB] "nm" 1 0 (Dest.strD "f") Dest.noneD

/-- C9: when every rank's field sequences have length equal to its
`numInternalNodes`, the separately-reduced global count equals the length
of the concatenated global record sequence, every index the fill loop
visits is strictly below that length (each access is in bounds), and the
fill loop therefore completes without an `IndexError`. -/
theorem claim9_fill_loop_in_bounds (rds : List RankData)
    (h : ∀ rd ∈ rds, rd.WF) :
    nbGlobalNodes rds = (globalFields rds).length ∧
    (∀ k, k < nbGlobalNodes rds →
      ((globalFields rds)[k]?).isSome = true) ∧
    (∀ name : String,
      (fillDict name (globalFields rds) (nbGlobalNodes rds)).isSome
        = true) := by
  have hlen := globalFields_length rds h
  refine ⟨hlen.symm, ?_, ?_⟩
  · intro k hk
    rw [List.getElem?_eq_getElem (by omega)]
    rfl
  · intro name
    rw [← hlen, fillDict_eq]
    rfl

/-- Witness for C9 on a 2-rank group. -/
theorem claim9_witness :
    (∀ rd ∈ [rdA, rdB], rd.WF) ∧
    (nbGlobalNodes [rdA, rdB] = (globalFields [rdA, rdB]).length ∧
     (∀ k, k < nbGlobalNodes [rdA, rdB] →
       ((globalFields [rdA, rdB])[k]?).isSome = true) ∧
     (∀ name : String,
       (fillDict name (globalFields [rdA, rdB])
         (nbGlobalNodes [rdA, rdB])).isSome = true)) :=
  ⟨by decide, claim9_fill_loop_in_bounds [rdA, rdB] (by decide)⟩

/-- C10: the `nl_id` validation accepts every non-boolean integer but
rejects `True` and `False`, even though `isinstance(b, int)` holds for
booleans (Python's `bool` is a subtype of `int`) — the second assert at
line 186 exists precisely to reject them. -/
theorem claim10_bool_id_rejected :
    (∀ b : Bool, isinstanceInt (PyIntLike.pyBool b) = true) ∧
    (∀ b : Bool, nlIdValidationPasses (PyIntLike.pyBool b) = false) ∧
    (∀ n : Int, nlIdValidationPasses (PyIntLike.pyInt n) = true) := by
  refine ⟨fun b => rfl, fun b => rfl, fun n => rfl⟩
